import Mathlib

/-!
Shallow embedding of the `pipeline upload` command of
`src/clicommand/pipeline_upload.go` (the action of `PipelineUploadCommand`).

External collaborators (file system, stdin, the pipeline parser, the
redaction-needle extractor, the JSON encoders, `git rev-parse`, the UUID
generator and the network upload endpoint) are modelled as components of a
`World` record; the command's control flow over them is translated
statement by statement from the Go source.
-/

namespace PipelineUpload

/-- An environment is an association list of variable name / value pairs,
seeded from the process environment (`env.FromSlice(os.Environ())`). -/
abbrev EnvMap := List (String × String)

/-- Lookup of a variable (`environ.Get`): first binding with the given key. -/
def envGet (e : EnvMap) (k : String) : Option String :=
  (e.find? (fun kv => kv.1 = k)).map (fun kv => kv.2)

/-- Update of a variable (`environ.Set`): overwrite the existing binding, or
append a new one when the key is absent. -/
def envSet (e : EnvMap) (k v : String) : EnvMap :=
  if (e.find? (fun kv => kv.1 = k)).isSome then
    e.map (fun kv => if kv.1 = k then (k, v) else kv)
  else
    e ++ [(k, v)]

/-- The last path element, as `filepath.Base` / `path.Base` compute it on a
slash-separated path: empty path gives `"."`, a path of only separators gives
`"/"`, otherwise trailing separators are removed and the last component is
returned. -/
def baseName (p : String) : String :=
  if p = "" then "."
  else
    let trimmed := ((p.toList.reverse.dropWhile (fun c => c = '/')).reverse)
    if trimmed = [] then "/"
    else String.mk ((trimmed.reverse.takeWhile (fun c => c ≠ '/')).reverse)

/-- The fixed, ordered discovery list of candidate pipeline files (lines
154-164 of the source). -/
def discoveryPaths : List String :=
  ["buildkite.yml", "buildkite.yaml", "buildkite.json",
   ".buildkite/pipeline.yml", ".buildkite/pipeline.yaml", ".buildkite/pipeline.json",
   "buildkite/pipeline.yml", "buildkite/pipeline.yaml", "buildkite/pipeline.json"]

/-- The flag/argument configuration of the command (`PipelineUploadConfig`);
only the fields the action reads are carried. -/
structure PipelineUploadConfig where
  filePath : String
  replace : Bool
  job : String
  dryRun : Bool
  noInterpolation : Bool
  redactedVars : List String
  agentAccessToken : String
deriving Repr, DecidableEq

/-- The opaque parsed pipeline document (`agent.PipelineParser.Parse` result). -/
structure PipelineDoc where
  raw : String
deriving Repr, DecidableEq

/-- Outcome of one network submission attempt (`client.UploadPipeline`):
success, an `api.ErrorResponse` carrying an HTTP status code, or any other
error (transport failure, timeout, ...). -/
inductive AttemptOutcome where
  | success : AttemptOutcome
  | errStatus : Nat → AttemptOutcome
  | errOther : AttemptOutcome
deriving Repr, DecidableEq

/-- The payload of one submission attempt (`api.Pipeline`):
`{UUID: uuid, Pipeline: result, Replace: cfg.Replace}` sent for `cfg.Job`. -/
structure UploadRequest where
  jobID : String
  changeID : String
  document : PipelineDoc
  replace : Bool
deriving Repr, DecidableEq

/-- The external collaborators of one invocation. -/
structure World where
  readFile : String → Option String
  stdinReadable : Bool
  stdinRead : Option String
  fileExists : String → Bool
  environ : EnvMap
  gitRevParse : String → Option String
  parse : EnvMap → String → String → Bool → Option PipelineDoc
  getValuesToRedact : List String → EnvMap → List String
  marshalJSON : PipelineDoc → Option String
  encodeIndented : PipelineDoc → Option String
  newUUID : String
  upload : Nat → AttemptOutcome

/-- Terminal outcome of the command: each `fatal*` constructor is one of the
`l.Fatal` call sites, the two non-fatal constructors are the dry-run return
and the final success log. -/
inductive Outcome where
  | fatalReadFile : Outcome
  | fatalReadStdin : Outcome
  | fatalMultipleConfigs : List String → Outcome
  | fatalNoConfig : Outcome
  | fatalReadFound : String → Outcome
  | fatalEmptyConfig : Outcome
  | fatalParse : String → Outcome
  | dryRunFatalEncode : Outcome
  | dryRunSuccess : String → Outcome
  | fatalSerialize : String → Outcome
  | fatalRedaction : String → Outcome
  | fatalMissingJob : Outcome
  | fatalMissingAccessToken : Outcome
  | fatalUpload : Outcome
  | uploadSuccess : Outcome
deriving Repr, DecidableEq

/-- Observable trace of one invocation: the terminal outcome, the network
submission requests in order, how many redaction substring scans ran, which
paths the leftover post-redaction fragment stat-checks, and the environment
handed to the parser (`none` when the parser is never reached). -/
structure RunResult where
  outcome : Outcome
  requests : List UploadRequest
  redactionScans : Nat
  residualStats : List String
  parserEnv : Option EnvMap
deriving Repr, DecidableEq

/-- Whether `pat` occurs at the head of `s`. -/
def startsWithChars : List Char → List Char → Bool
  | _, [] => true
  | [], _ :: _ => false
  | a :: s, b :: pat => a = b && startsWithChars s pat

/-- Whether `pat` occurs anywhere inside `s`. -/
def hasSubstrChars (pat : List Char) : List Char → Bool
  | [] => startsWithChars [] pat
  | a :: t => startsWithChars (a :: t) pat || hasSubstrChars pat t

/-- Literal substring containment, as `strings.Contains` computes it: the
empty needle is contained everywhere. -/
def containsSubstr (s sub : String) : Bool :=
  hasSubstrChars sub.toList s.toList

/-- An attempt outcome that the retry loop treats as retryable: any error
other than an `api.ErrorResponse` with status 422. -/
def retryableFailure : AttemptOutcome → Bool
  | AttemptOutcome.success => false
  | AttemptOutcome.errStatus code => code != 422
  | AttemptOutcome.errOther => true

/-- Modelled from the spec: the bounded retry loop of the external `retry`
package (`retry.Do` with `retry.Config{Maximum, Interval}`), whose source is
not under `src/`: up to `Maximum` sequential attempts, a fixed delay between
attempts, stop on the first success, and stop early with the error when the
callback invokes `Stats.Break` — which the command's callback does exactly on
a 422 response. `k` is the index of the next attempt, the fuel is the number
of attempts still allowed; the result is the list of requests sent, in order,
and whether the loop ended in success. -/
def retryGo (mkReq : Nat → UploadRequest) (upload : Nat → AttemptOutcome) :
    Nat → Nat → List UploadRequest × Bool
  | _, 0 => ([], false)
  | k, fuel + 1 =>
    match upload k with
    | AttemptOutcome.success => ([mkReq k], true)
    | AttemptOutcome.errStatus code =>
      if code = 422 then ([mkReq k], false)
      else
        let r := retryGo mkReq upload (k + 1) fuel
        (mkReq k :: r.1, r.2)
    | AttemptOutcome.errOther =>
      let r := retryGo mkReq upload (k + 1) fuel
      (mkReq k :: r.1, r.2)

/-- Modelled from the spec: entry point of the retry loop, attempts numbered
from 1. -/
def retryLoop (mkReq : Nat → UploadRequest) (upload : Nat → AttemptOutcome)
    (maxAttempts : Nat) : List UploadRequest × Bool :=
  retryGo mkReq upload 1 maxAttempts

/-- The attempt budget configured at the call site
(`retry.Config{Maximum: 60, ...}`). -/
def retryConfigMaximum : Nat := 60

/-- The fixed delay between attempts configured at the call site, in seconds
(`Interval: 5 * time.Second`). -/
def retryConfigIntervalSeconds : Nat := 5

/-- Result of the source-resolution block (lines 135-192): either the
filename passed to the parser together with the raw input, or a fatal exit. -/
inductive SourceRes where
  | ok : String → String → SourceRes
  | fatal : Outcome → SourceRes
deriving Repr, DecidableEq

/-- Source resolution (lines 135-192): explicit path first, then piped
stdin, then the discovery list, where zero matches and more than one match
are fatal and a unique match is read. -/
def resolveSource (cfg : PipelineUploadConfig) (w : World) : SourceRes :=
  if cfg.filePath ≠ "" then
    match w.readFile cfg.filePath with
    | some input => SourceRes.ok (baseName cfg.filePath) input
    | none => SourceRes.fatal Outcome.fatalReadFile
  else if w.stdinReadable then
    match w.stdinRead with
    | some input => SourceRes.ok "" input
    | none => SourceRes.fatal Outcome.fatalReadStdin
  else
    match discoveryPaths.filter w.fileExists with
    | [] => SourceRes.fatal Outcome.fatalNoConfig
    | [found] =>
      (match w.readFile found with
       | some input => SourceRes.ok (baseName found) input
       | none => SourceRes.fatal (Outcome.fatalReadFound found))
    | fs => SourceRes.fatal (Outcome.fatalMultipleConfigs fs)

/-- Commit resolution (lines 203-212): when `BUILDKITE_COMMIT` is present,
run `git rev-parse` on its value; on success overwrite the variable with the
trimmed output, on failure log a warning and leave the environment as it is. -/
def resolveCommit (e : EnvMap) (git : String → Option String) : EnvMap :=
  match envGet e "BUILDKITE_COMMIT" with
  | none => e
  | some commitRef =>
    match git commitRef with
    | none => e
    | some cmdOut => envSet e "BUILDKITE_COMMIT" cmdOut.trim

/-- The tail of the action after the redaction block: the leftover stat loop
over the discovery candidates (lines 266-270, whose `paths` and `exists` are
not in scope there in the source — embedded as a stat pass over the same
nine candidate paths), then the job and access-token checks, then the UUID
generation and the retry loop. -/
def postRedaction (cfg : PipelineUploadConfig) (w : World) (doc : PipelineDoc)
    (pe : Option EnvMap) : RunResult :=
  let residual := discoveryPaths
  if cfg.job = "" then
    ⟨Outcome.fatalMissingJob, [], 0, residual, pe⟩
  else if cfg.agentAccessToken = "" then
    ⟨Outcome.fatalMissingAccessToken, [], 0, residual, pe⟩
  else
    let uuid := w.newUUID
    let r := retryLoop (fun _ => ⟨cfg.job, uuid, doc, cfg.replace⟩) w.upload
      retryConfigMaximum
    if r.2 then ⟨Outcome.uploadSuccess, r.1, 0, residual, pe⟩
    else ⟨Outcome.fatalUpload, r.1, 0, residual, pe⟩

/-- The redaction block (lines 244-264): active only when `redacted-vars` is
non-empty; resolves the needles from the environment, serializes the parsed
document, and fatally refuses the upload when any needle occurs as a literal
substring of the serialization. -/
def redactionPhase (cfg : PipelineUploadConfig) (w : World) (doc : PipelineDoc)
    (src : String) (environ : EnvMap) : RunResult :=
  if 0 < cfg.redactedVars.length then
    let needles := w.getValuesToRedact cfg.redactedVars environ
    match w.marshalJSON doc with
    | none => ⟨Outcome.fatalSerialize src, [], 0, [], some environ⟩
    | some serialisedPipeline =>
      if needles.any (fun needle => containsSubstr serialisedPipeline needle) then
        ⟨Outcome.fatalRedaction src, [], 1, [], some environ⟩
      else
        { postRedaction cfg w doc (some environ) with redactionScans := 1 }
  else postRedaction cfg w doc (some environ)

/-- The middle of the action (lines 195-242): empty-input check, environment
construction and commit resolution, parse, and the dry-run short circuit. -/
def parsePhase (cfg : PipelineUploadConfig) (w : World)
    (filename input : String) : RunResult :=
  if input = "" then ⟨Outcome.fatalEmptyConfig, [], 0, [], none⟩
  else
    let environ := resolveCommit w.environ w.gitRevParse
    let src := if filename = "" then "(stdin)" else filename
    match w.parse environ filename input cfg.noInterpolation with
    | none => ⟨Outcome.fatalParse src, [], 0, [], some environ⟩
    | some result =>
      if cfg.dryRun then
        match w.encodeIndented result with
        | none => ⟨Outcome.dryRunFatalEncode, [], 0, [], some environ⟩
        | some out => ⟨Outcome.dryRunSuccess out, [], 0, [], some environ⟩
      else redactionPhase cfg w result src environ

/-- The whole action of the upload command, as a function of its
configuration and its external collaborators. -/
def run (cfg : PipelineUploadConfig) (w : World) : RunResult :=
  match resolveSource cfg w with
  | SourceRes.fatal o => ⟨o, [], 0, [], none⟩
  | SourceRes.ok filename input => parsePhase cfg w filename input

/-! Helper lemmas about the retry loop. -/

/-- Every request the retry loop emits was built by the request constructor. -/
theorem retryGo_mem (mkReq : Nat → UploadRequest) (upload : Nat → AttemptOutcome) :
    ∀ fuel k r, r ∈ (retryGo mkReq upload k fuel).1 → ∃ i, r = mkReq i := by
  intro fuel
  induction fuel with
  | zero => intro k r hr; simp [retryGo] at hr
  | succ n ih =>
    intro k r hr
    cases h : upload k with
    | success =>
      simp [retryGo, h] at hr
      exact ⟨k, hr⟩
    | errStatus code =>
      by_cases hc : code = 422
      · simp [retryGo, h, hc] at hr
        exact ⟨k, hr⟩
      · simp [retryGo, h, hc] at hr
        rcases hr with hr | hr
        · exact ⟨k, hr⟩
        · exact ih (k + 1) r hr
    | errOther =>
      simp [retryGo, h] at hr
      rcases hr with hr | hr
      · exact ⟨k, hr⟩
      · exact ih (k + 1) r hr

/-- The retry loop never makes more attempts than its fuel allows. -/
theorem retryGo_length_le (mkReq : Nat → UploadRequest)
    (upload : Nat → AttemptOutcome) :
    ∀ fuel k, (retryGo mkReq upload k fuel).1.length ≤ fuel := by
  intro fuel
  induction fuel with
  | zero => intro k; simp [retryGo]
  | succ n ih =>
    intro k
    cases h : upload k with
    | success => simp [retryGo, h]
    | errStatus code =>
      by_cases hc : code = 422
      · simp [retryGo, h, hc]
      · simp only [retryGo, h, hc, if_false, List.length_cons]
        exact Nat.succ_le_succ (ih (k + 1))
    | errOther =>
      simp only [retryGo, h, List.length_cons]
      exact Nat.succ_le_succ (ih (k + 1))

/-- With positive fuel the retry loop makes at least one attempt. -/
theorem retryGo_length_pos (mkReq : Nat → UploadRequest)
    (upload : Nat → AttemptOutcome) (fuel k : Nat) (h : 0 < fuel) :
    0 < (retryGo mkReq upload k fuel).1.length := by
  cases fuel with
  | zero => exact absurd h (by simp)
  | succ n =>
    cases hu : upload k with
    | success => simp [retryGo, hu]
    | errStatus code =>
      by_cases hc : code = 422 <;> simp [retryGo, hu, hc]
    | errOther => simp [retryGo, hu]

/-- When every attempt in the budget fails retryably, the loop performs all
the attempts, in order, and ends in failure. -/
theorem retryGo_exhaust (mkReq : Nat → UploadRequest)
    (upload : Nat → AttemptOutcome) :
    ∀ fuel k, (∀ j, k ≤ j → j < k + fuel → retryableFailure (upload j) = true) →
      retryGo mkReq upload k fuel = ((List.range' k fuel).map mkReq, false) := by
  intro fuel
  induction fuel with
  | zero => intro k _; simp [retryGo]
  | succ n ih =>
    intro k hall
    have hk : retryableFailure (upload k) = true :=
      hall k (Nat.le_refl k) (by omega)
    cases h : upload k with
    | success => rw [h] at hk; simp [retryableFailure] at hk
    | errStatus code =>
      rw [h] at hk
      have hc : code ≠ 422 := by
        simpa [retryableFailure] using hk
      have ihr := ih (k + 1) (fun j h1 h2 => hall j (by omega) (by omega))
      simp only [retryGo, h, hc, if_false, ihr, List.range'_succ, List.map_cons]
    | errOther =>
      have ihr := ih (k + 1) (fun j h1 h2 => hall j (by omega) (by omega))
      simp only [retryGo, h, ihr, List.range'_succ, List.map_cons]

/-- When attempt `k + d` succeeds after only retryable failures, the loop
stops there in success having performed exactly `d + 1` attempts. -/
theorem retryGo_success (mkReq : Nat → UploadRequest)
    (upload : Nat → AttemptOutcome) :
    ∀ d k fuel, d < fuel → upload (k + d) = AttemptOutcome.success →
      (∀ j, k ≤ j → j < k + d → retryableFailure (upload j) = true) →
      retryGo mkReq upload k fuel = ((List.range' k (d + 1)).map mkReq, true) := by
  intro d
  induction d with
  | zero =>
    intro k fuel hd hs _
    cases fuel with
    | zero => omega
    | succ n => simp only [retryGo, Nat.add_zero] at hs ⊢; rw [hs]; simp
  | succ m ih =>
    intro k fuel hd hs hall
    have hk : retryableFailure (upload k) = true :=
      hall k (Nat.le_refl k) (by omega)
    cases fuel with
    | zero => omega
    | succ n =>
      have ihr := ih (k + 1) n (by omega) (by rw [show k + 1 + m = k + (m + 1) by omega]; exact hs)
        (fun j h1 h2 => hall j (by omega) (by omega))
      cases h : upload k with
      | success => rw [h] at hk; simp [retryableFailure] at hk
      | errStatus code =>
        rw [h] at hk
        have hc : code ≠ 422 := by simpa [retryableFailure] using hk
        simp only [retryGo, h, hc, if_false, ihr, List.range'_succ, List.map_cons]
      | errOther =>
        simp only [retryGo, h, ihr, List.range'_succ, List.map_cons]

/-- When attempt `k + d` fails with status 422 after only retryable
failures, the loop aborts there having performed exactly `d + 1` attempts,
ending in failure no matter how much fuel remains. -/
theorem retryGo_422 (mkReq : Nat → UploadRequest)
    (upload : Nat → AttemptOutcome) :
    ∀ d k fuel, d < fuel → upload (k + d) = AttemptOutcome.errStatus 422 →
      (∀ j, k ≤ j → j < k + d → retryableFailure (upload j) = true) →
      retryGo mkReq upload k fuel = ((List.range' k (d + 1)).map mkReq, false) := by
  intro d
  induction d with
  | zero =>
    intro k fuel hd hs _
    cases fuel with
    | zero => omega
    | succ n => simp only [retryGo, Nat.add_zero] at hs ⊢; rw [hs]; simp
  | succ m ih =>
    intro k fuel hd hs hall
    have hk : retryableFailure (upload k) = true :=
      hall k (Nat.le_refl k) (by omega)
    cases fuel with
    | zero => omega
    | succ n =>
      have ihr := ih (k + 1) n (by omega) (by rw [show k + 1 + m = k + (m + 1) by omega]; exact hs)
        (fun j h1 h2 => hall j (by omega) (by omega))
      cases h : upload k with
      | success => rw [h] at hk; simp [retryableFailure] at hk
      | errStatus code =>
        rw [h] at hk
        have hc : code ≠ 422 := by simpa [retryableFailure] using hk
        simp only [retryGo, h, hc, if_false, ihr, List.range'_succ, List.map_cons]
      | errOther =>
        simp only [retryGo, h, ihr, List.range'_succ, List.map_cons]

/-! Helper lemmas characterizing the stages of the action. -/

/-- A fatal source resolution ends the run with that outcome and no trace. -/
theorem run_source_fatal (cfg : PipelineUploadConfig) (w : World) (o : Outcome)
    (h : resolveSource cfg w = SourceRes.fatal o) :
    run cfg w = ⟨o, [], 0, [], none⟩ := by
  unfold run; rw [h]

/-- A successful source resolution hands over to the parse phase. -/
theorem run_source_ok (cfg : PipelineUploadConfig) (w : World) (fn inp : String)
    (h : resolveSource cfg w = SourceRes.ok fn inp) :
    run cfg w = parsePhase cfg w fn inp := by
  unfold run; rw [h]

/-- With an explicit path that reads successfully, resolution returns the
base name of the path and the file content. -/
theorem resolveSource_explicit_ok (cfg : PipelineUploadConfig) (w : World)
    (inp : String) (hne : cfg.filePath ≠ "")
    (hr : w.readFile cfg.filePath = some inp) :
    resolveSource cfg w = SourceRes.ok (baseName cfg.filePath) inp := by
  unfold resolveSource; rw [if_pos hne, hr]

/-- With an explicit path that fails to read, resolution is fatal. -/
theorem resolveSource_explicit_err (cfg : PipelineUploadConfig) (w : World)
    (hne : cfg.filePath ≠ "") (hr : w.readFile cfg.filePath = none) :
    resolveSource cfg w = SourceRes.fatal Outcome.fatalReadFile := by
  unfold resolveSource; rw [if_pos hne, hr]

/-- With no explicit path and readable piped input, resolution returns the
empty filename and the piped content. -/
theorem resolveSource_stdin_ok (cfg : PipelineUploadConfig) (w : World)
    (inp : String) (h0 : cfg.filePath = "") (hs : w.stdinReadable = true)
    (hr : w.stdinRead = some inp) :
    resolveSource cfg w = SourceRes.ok "" inp := by
  unfold resolveSource
  rw [if_neg (by simp [h0]), if_pos hs, hr]

/-- With no explicit path, no piped input and no existing discovery
candidate, resolution is fatal with the not-found error. -/
theorem resolveSource_discovery_none (cfg : PipelineUploadConfig) (w : World)
    (h0 : cfg.filePath = "") (hs : w.stdinReadable = false)
    (hf : discoveryPaths.filter w.fileExists = []) :
    resolveSource cfg w = SourceRes.fatal Outcome.fatalNoConfig := by
  unfold resolveSource
  rw [if_neg (by simp [h0]), if_neg (by simp [hs]), hf]

/-- With exactly one existing discovery candidate that reads successfully,
resolution returns its base name and content. -/
theorem resolveSource_discovery_one (cfg : PipelineUploadConfig) (w : World)
    (p inp : String) (h0 : cfg.filePath = "") (hs : w.stdinReadable = false)
    (hf : discoveryPaths.filter w.fileExists = [p])
    (hr : w.readFile p = some inp) :
    resolveSource cfg w = SourceRes.ok (baseName p) inp := by
  unfold resolveSource
  rw [if_neg (by simp [h0]), if_neg (by simp [hs]), hf]
  simp [hr]

/-- With more than one existing discovery candidate, resolution is fatal
with the ambiguity error listing every offender. -/
theorem resolveSource_discovery_multi (cfg : PipelineUploadConfig) (w : World)
    (h0 : cfg.filePath = "") (hs : w.stdinReadable = false)
    (hlen : 1 < (discoveryPaths.filter w.fileExists).length) :
    resolveSource cfg w =
      SourceRes.fatal (Outcome.fatalMultipleConfigs
        (discoveryPaths.filter w.fileExists)) := by
  unfold resolveSource
  rw [if_neg (by simp [h0]), if_neg (by simp [hs])]
  rcases hx : discoveryPaths.filter w.fileExists with _ | ⟨a, _ | ⟨b, t⟩⟩
  · rw [hx] at hlen; simp at hlen
  · rw [hx] at hlen; simp at hlen
  · rfl

/-- When the external revision resolver fails on every input, the
environment is left untouched. -/
theorem resolveCommit_gitfail (e : EnvMap) (git : String → Option String)
    (h : ∀ r, git r = none) : resolveCommit e git = e := by
  unfold resolveCommit
  cases hg : envGet e "BUILDKITE_COMMIT" with
  | none => rfl
  | some commitRef => simp [h commitRef]

/-- The redaction block lets the document through: either no redacted
variables are configured, or the serialization succeeds and contains no
needle as a substring. -/
def redactionClean (cfg : PipelineUploadConfig) (w : World) (environ : EnvMap)
    (doc : PipelineDoc) : Bool :=
  if cfg.redactedVars.length = 0 then true
  else
    match w.marshalJSON doc with
    | none => false
    | some s =>
      !((w.getValuesToRedact cfg.redactedVars environ).any
        (fun needle => containsSubstr s needle))

/-- Empty input is fatal before anything else in the parse phase. -/
theorem parsePhase_empty (cfg : PipelineUploadConfig) (w : World) (fn : String) :
    parsePhase cfg w fn "" = ⟨Outcome.fatalEmptyConfig, [], 0, [], none⟩ := by
  simp [parsePhase]

/-- A parse failure is fatal, naming the source. -/
theorem parsePhase_parse_fatal (cfg : PipelineUploadConfig) (w : World)
    (fn inp : String) (hi : inp ≠ "")
    (hp : w.parse (resolveCommit w.environ w.gitRevParse) fn inp
      cfg.noInterpolation = none) :
    parsePhase cfg w fn inp =
      ⟨Outcome.fatalParse (if fn = "" then "(stdin)" else fn), [], 0, [],
        some (resolveCommit w.environ w.gitRevParse)⟩ := by
  simp only [parsePhase, if_neg hi, hp]

/-- In dry-run mode a successful parse and a successful indented encode end
the run successfully with no redaction scan, no stat pass and no request. -/
theorem parsePhase_dryrun_ok (cfg : PipelineUploadConfig) (w : World)
    (fn inp out : String) (doc : PipelineDoc) (hi : inp ≠ "")
    (hp : w.parse (resolveCommit w.environ w.gitRevParse) fn inp
      cfg.noInterpolation = some doc)
    (hd : cfg.dryRun = true) (he : w.encodeIndented doc = some out) :
    parsePhase cfg w fn inp =
      ⟨Outcome.dryRunSuccess out, [], 0, [],
        some (resolveCommit w.environ w.gitRevParse)⟩ := by
  simp only [parsePhase, if_neg hi, hp, hd, if_true, he]

/-- In dry-run mode an encoding failure is fatal. -/
theorem parsePhase_dryrun_err (cfg : PipelineUploadConfig) (w : World)
    (fn inp : String) (doc : PipelineDoc) (hi : inp ≠ "")
    (hp : w.parse (resolveCommit w.environ w.gitRevParse) fn inp
      cfg.noInterpolation = some doc)
    (hd : cfg.dryRun = true) (he : w.encodeIndented doc = none) :
    parsePhase cfg w fn inp =
      ⟨Outcome.dryRunFatalEncode, [], 0, [],
        some (resolveCommit w.environ w.gitRevParse)⟩ := by
  simp only [parsePhase, if_neg hi, hp, hd, if_true, he]

/-- Outside dry-run mode a successful parse hands over to the redaction
phase. -/
theorem parsePhase_to_redaction (cfg : PipelineUploadConfig) (w : World)
    (fn inp : String) (doc : PipelineDoc) (hi : inp ≠ "")
    (hp : w.parse (resolveCommit w.environ w.gitRevParse) fn inp
      cfg.noInterpolation = some doc)
    (hd : cfg.dryRun = false) :
    parsePhase cfg w fn inp =
      redactionPhase cfg w doc (if fn = "" then "(stdin)" else fn)
        (resolveCommit w.environ w.gitRevParse) := by
  simp only [parsePhase, if_neg hi, hp, hd, Bool.false_eq_true, if_false]

/-- A serialization failure in the active redaction block is fatal. -/
theorem redactionPhase_serialize_fatal (cfg : PipelineUploadConfig) (w : World)
    (doc : PipelineDoc) (src : String) (environ : EnvMap)
    (hv : 0 < cfg.redactedVars.length) (hm : w.marshalJSON doc = none) :
    redactionPhase cfg w doc src environ =
      ⟨Outcome.fatalSerialize src, [], 0, [], some environ⟩ := by
  simp only [redactionPhase, if_pos hv, hm]

/-- A needle found in the serialized document is fatal, naming the source,
with no request made and no stat pass run. -/
theorem redactionPhase_hit (cfg : PipelineUploadConfig) (w : World)
    (doc : PipelineDoc) (src : String) (environ : EnvMap) (s : String)
    (hv : 0 < cfg.redactedVars.length) (hm : w.marshalJSON doc = some s)
    (ha : (w.getValuesToRedact cfg.redactedVars environ).any
      (fun needle => containsSubstr s needle) = true) :
    redactionPhase cfg w doc src environ =
      ⟨Outcome.fatalRedaction src, [], 1, [], some environ⟩ := by
  simp only [redactionPhase, if_pos hv, hm, ha, if_true]

/-- A clean redaction block hands over to the tail of the action, changing
at most the count of substring scans performed. -/
theorem redactionPhase_clean (cfg : PipelineUploadConfig) (w : World)
    (doc : PipelineDoc) (src : String) (environ : EnvMap)
    (h : redactionClean cfg w environ doc = true) :
    ∃ n, redactionPhase cfg w doc src environ =
      { postRedaction cfg w doc (some environ) with redactionScans := n } := by
  unfold redactionClean at h
  by_cases hv : cfg.redactedVars.length = 0
  · refine ⟨(postRedaction cfg w doc (some environ)).redactionScans, ?_⟩
    have hnv : ¬ 0 < cfg.redactedVars.length := by omega
    rw [redactionPhase, if_neg hnv]
  · rw [if_neg hv] at h
    cases hm : w.marshalJSON doc with
    | none => rw [hm] at h; simp at h
    | some s =>
      rw [hm] at h
      simp only [Bool.not_eq_true'] at h
      refine ⟨1, ?_⟩
      have hv' : 0 < cfg.redactedVars.length := by omega
      simp only [redactionPhase, if_pos hv', hm, h, Bool.false_eq_true, if_false]

/-- An empty job identifier is fatal in the tail of the action, before any
request is made. -/
theorem postRedaction_missing_job (cfg : PipelineUploadConfig) (w : World)
    (doc : PipelineDoc) (pe : Option EnvMap) (hj : cfg.job = "") :
    postRedaction cfg w doc pe =
      ⟨Outcome.fatalMissingJob, [], 0, discoveryPaths, pe⟩ := by
  simp only [postRedaction, if_pos hj]

/-- An empty access token is fatal in the tail of the action, before any
request is made. -/
theorem postRedaction_missing_token (cfg : PipelineUploadConfig) (w : World)
    (doc : PipelineDoc) (pe : Option EnvMap) (hj : cfg.job ≠ "")
    (ht : cfg.agentAccessToken = "") :
    postRedaction cfg w doc pe =
      ⟨Outcome.fatalMissingAccessToken, [], 0, discoveryPaths, pe⟩ := by
  simp only [postRedaction, if_neg hj, if_pos ht]

/-- With job and token set, the tail of the action is the retry loop over a
request built once from the UUID generated before the loop. -/
theorem postRedaction_submits (cfg : PipelineUploadConfig) (w : World)
    (doc : PipelineDoc) (pe : Option EnvMap) (hj : cfg.job ≠ "")
    (ht : cfg.agentAccessToken ≠ "") :
    postRedaction cfg w doc pe =
      (if (retryLoop (fun _ => ⟨cfg.job, w.newUUID, doc, cfg.replace⟩) w.upload
            retryConfigMaximum).2 then
        ⟨Outcome.uploadSuccess,
          (retryLoop (fun _ => ⟨cfg.job, w.newUUID, doc, cfg.replace⟩) w.upload
            retryConfigMaximum).1, 0, discoveryPaths, pe⟩
      else
        ⟨Outcome.fatalUpload,
          (retryLoop (fun _ => ⟨cfg.job, w.newUUID, doc, cfg.replace⟩) w.upload
            retryConfigMaximum).1, 0, discoveryPaths, pe⟩) := by
  simp only [postRedaction, if_neg hj, if_neg ht]

/-- Under the preconditions for submission, the run is determined by the
retry loop: the outcome reflects its success flag, the requests are exactly
those the loop sent, the leftover stat pass ran over the discovery
candidates, and the parser saw the commit-resolved environment. -/
theorem run_submits (cfg : PipelineUploadConfig) (w : World)
    (fn inp : String) (doc : PipelineDoc)
    (hs : resolveSource cfg w = SourceRes.ok fn inp) (hi : inp ≠ "")
    (hp : w.parse (resolveCommit w.environ w.gitRevParse) fn inp
      cfg.noInterpolation = some doc)
    (hd : cfg.dryRun = false)
    (hc : redactionClean cfg w (resolveCommit w.environ w.gitRevParse) doc = true)
    (hj : cfg.job ≠ "") (ht : cfg.agentAccessToken ≠ "") :
    (run cfg w).outcome =
      (if (retryLoop (fun _ => ⟨cfg.job, w.newUUID, doc, cfg.replace⟩) w.upload
          retryConfigMaximum).2 then Outcome.uploadSuccess
        else Outcome.fatalUpload) ∧
    (run cfg w).requests =
      (retryLoop (fun _ => ⟨cfg.job, w.newUUID, doc, cfg.replace⟩) w.upload
        retryConfigMaximum).1 ∧
    (run cfg w).residualStats = discoveryPaths ∧
    (run cfg w).parserEnv = some (resolveCommit w.environ w.gitRevParse) := by
  rw [run_source_ok cfg w fn inp hs,
    parsePhase_to_redaction cfg w fn inp doc hi hp hd]
  obtain ⟨n, hn⟩ := redactionPhase_clean cfg w doc
    (if fn = "" then "(stdin)" else fn) (resolveCommit w.environ w.gitRevParse) hc
  rw [hn, postRedaction_submits cfg w doc _ hj ht]
  cases hb : (retryLoop (fun _ => ⟨cfg.job, w.newUUID, doc, cfg.replace⟩)
      w.upload retryConfigMaximum).2 <;>
    simp [hb]

/-- With no redacted variables configured the redaction block is inactive. -/
theorem redactionClean_of_empty (cfg : PipelineUploadConfig) (w : World)
    (environ : EnvMap) (doc : PipelineDoc) (hv : cfg.redactedVars.length = 0) :
    redactionClean cfg w environ doc = true := by
  unfold redactionClean; rw [if_pos hv]

/-- A successful serialization containing no needle passes the redaction
block. -/
theorem redactionClean_of_no_hit (cfg : PipelineUploadConfig) (w : World)
    (environ : EnvMap) (doc : PipelineDoc) (s : String)
    (hm : w.marshalJSON doc = some s)
    (ha : (w.getValuesToRedact cfg.redactedVars environ).any
      (fun needle => containsSubstr s needle) = false) :
    redactionClean cfg w environ doc = true := by
  unfold redactionClean
  by_cases hv : cfg.redactedVars.length = 0
  · rw [if_pos hv]
  · rw [if_neg hv, hm]; simp [ha]

/-- The tail of the action reports the parser environment it was handed. -/
theorem postRedaction_parserEnv (cfg : PipelineUploadConfig) (w : World)
    (doc : PipelineDoc) (pe : Option EnvMap) :
    (postRedaction cfg w doc pe).parserEnv = pe := by
  by_cases hj : cfg.job = ""
  · rw [postRedaction_missing_job cfg w doc pe hj]
  · by_cases ht : cfg.agentAccessToken = ""
    · rw [postRedaction_missing_token cfg w doc pe hj ht]
    · rw [postRedaction_submits cfg w doc pe hj ht]
      split <;> rfl

/-- The tail of the action makes either no request (a failed precondition)
or exactly the requests of the retry loop. -/
theorem postRedaction_requests (cfg : PipelineUploadConfig) (w : World)
    (doc : PipelineDoc) (pe : Option EnvMap) :
    (postRedaction cfg w doc pe).requests = [] ∨
    ((postRedaction cfg w doc pe).requests =
      (retryLoop (fun _ => ⟨cfg.job, w.newUUID, doc, cfg.replace⟩) w.upload
        retryConfigMaximum).1 ∧
      cfg.job ≠ "" ∧ cfg.agentAccessToken ≠ "") := by
  by_cases hj : cfg.job = ""
  · rw [postRedaction_missing_job cfg w doc pe hj]; left; rfl
  · by_cases ht : cfg.agentAccessToken = ""
    · rw [postRedaction_missing_token cfg w doc pe hj ht]; left; rfl
    · rw [postRedaction_submits cfg w doc pe hj ht]
      refine Or.inr ⟨?_, hj, ht⟩
      split <;> rfl

/-- The redaction phase reports the parser environment it was handed. -/
theorem redactionPhase_parserEnv (cfg : PipelineUploadConfig) (w : World)
    (doc : PipelineDoc) (src : String) (environ : EnvMap) :
    (redactionPhase cfg w doc src environ).parserEnv = some environ := by
  by_cases hv : 0 < cfg.redactedVars.length
  · cases hm : w.marshalJSON doc with
    | none => rw [redactionPhase_serialize_fatal cfg w doc src environ hv hm]
    | some s =>
      by_cases ha : (w.getValuesToRedact cfg.redactedVars environ).any
        (fun needle => containsSubstr s needle) = true
      · rw [redactionPhase_hit cfg w doc src environ s hv hm ha]
      · obtain ⟨n, hn⟩ := redactionPhase_clean cfg w doc src environ
          (redactionClean_of_no_hit cfg w environ doc s hm
            (Bool.not_eq_true _ ▸ ha))
        rw [hn]
        simpa using postRedaction_parserEnv cfg w doc (some environ)
  · obtain ⟨n, hn⟩ := redactionPhase_clean cfg w doc src environ
      (redactionClean_of_empty cfg w environ doc (by omega))
    rw [hn]
    simpa using postRedaction_parserEnv cfg w doc (some environ)

/-- Once a non-empty input was resolved, the parser is always reached and
always sees the commit-resolved environment. -/
theorem parsePhase_parserEnv (cfg : PipelineUploadConfig) (w : World)
    (fn inp : String) (hi : inp ≠ "") :
    (parsePhase cfg w fn inp).parserEnv =
      some (resolveCommit w.environ w.gitRevParse) := by
  cases hp : w.parse (resolveCommit w.environ w.gitRevParse) fn inp
    cfg.noInterpolation with
  | none => rw [parsePhase_parse_fatal cfg w fn inp hi hp]
  | some doc =>
    cases hd : cfg.dryRun with
    | true =>
      cases he : w.encodeIndented doc with
      | none => rw [parsePhase_dryrun_err cfg w fn inp doc hi hp hd he]
      | some out => rw [parsePhase_dryrun_ok cfg w fn inp out doc hi hp hd he]
    | false =>
      rw [parsePhase_to_redaction cfg w fn inp doc hi hp hd]
      exact redactionPhase_parserEnv cfg w doc _ _

/-- Every request list a run can produce is either empty or exactly the
output of the retry loop over the single request built before the loop. -/
theorem run_requests_shape (cfg : PipelineUploadConfig) (w : World) :
    (run cfg w).requests = [] ∨
    ∃ doc, (run cfg w).requests =
      (retryLoop (fun _ => ⟨cfg.job, w.newUUID, doc, cfg.replace⟩) w.upload
        retryConfigMaximum).1 ∧
      cfg.job ≠ "" ∧ cfg.agentAccessToken ≠ "" := by
  cases hsrc : resolveSource cfg w with
  | fatal o => rw [run_source_fatal cfg w o hsrc]; left; rfl
  | ok fn inp =>
    rw [run_source_ok cfg w fn inp hsrc]
    by_cases hi : inp = ""
    · subst hi; rw [parsePhase_empty]; left; rfl
    · cases hp : w.parse (resolveCommit w.environ w.gitRevParse) fn inp
        cfg.noInterpolation with
      | none => rw [parsePhase_parse_fatal cfg w fn inp hi hp]; left; rfl
      | some doc =>
        cases hd : cfg.dryRun with
        | true =>
          cases he : w.encodeIndented doc with
          | none =>
            rw [parsePhase_dryrun_err cfg w fn inp doc hi hp hd he]; left; rfl
          | some out =>
            rw [parsePhase_dryrun_ok cfg w fn inp out doc hi hp hd he]; left; rfl
        | false =>
          rw [parsePhase_to_redaction cfg w fn inp doc hi hp hd]
          by_cases hv : 0 < cfg.redactedVars.length
          · cases hm : w.marshalJSON doc with
            | none =>
              rw [redactionPhase_serialize_fatal cfg w doc _ _ hv hm]; left; rfl
            | some s =>
              by_cases ha : (w.getValuesToRedact cfg.redactedVars
                  (resolveCommit w.environ w.gitRevParse)).any
                  (fun needle => containsSubstr s needle) = true
              · rw [redactionPhase_hit cfg w doc _ _ s hv hm ha]; left; rfl
              · obtain ⟨n, hn⟩ := redactionPhase_clean cfg w doc
                  (if fn = "" then "(stdin)" else fn)
                  (resolveCommit w.environ w.gitRevParse)
                  (redactionClean_of_no_hit cfg w _ doc s hm
                    (Bool.not_eq_true _ ▸ ha))
                rw [hn]
                have := postRedaction_requests cfg w doc
                  (some (resolveCommit w.environ w.gitRevParse))
                rcases this with h | ⟨h, hj, ht⟩
                · left; simpa using h
                · right; exact ⟨doc, by simpa using h, hj, ht⟩
          · obtain ⟨n, hn⟩ := redactionPhase_clean cfg w doc
              (if fn = "" then "(stdin)" else fn)
              (resolveCommit w.environ w.gitRevParse)
              (redactionClean_of_empty cfg w _ doc (by omega))
            rw [hn]
            have := postRedaction_requests cfg w doc
              (some (resolveCommit w.environ w.gitRevParse))
            rcases this with h | ⟨h, hj, ht⟩
            · left; simpa using h
            · right; exact ⟨doc, by simpa using h, hj, ht⟩

/-! Concrete sample configurations and collaborator worlds used to witness
the theorems on reachable inputs. -/

/-- A configuration with an explicit path, a job, a token, and no redacted
variables. -/
def baseCfg : PipelineUploadConfig where
  filePath := "dir/pipeline.yml"
  replace := false
  job := "job-1"
  dryRun := false
  noInterpolation := false
  redactedVars := []
  agentAccessToken := "token-1"

/-- A world where the explicit path reads a small document, parsing wraps
the input verbatim, serialization returns the raw document, the needle
extractor resolves variable names through the environment, revision
resolution fails, and every upload attempt succeeds. -/
def baseWorld : World where
  readFile := fun p => if p = "dir/pipeline.yml" then some "steps: []" else none
  stdinReadable := false
  stdinRead := none
  fileExists := fun _ => false
  environ := [("BUILDKITE_COMMIT", "HEAD"), ("SECRET", "foo123")]
  gitRevParse := fun _ => none
  parse := fun _ _ input _ => some ⟨input⟩
  getValuesToRedact := fun names e => names.filterMap (fun n => envGet e n)
  marshalJSON := fun d => some d.raw
  encodeIndented := fun d => some d.raw
  newUUID := "uuid-1"
  upload := fun _ => AttemptOutcome.success

/-- The base world with every upload attempt answering status 422. -/
def world422 : World :=
  { baseWorld with upload := fun _ => AttemptOutcome.errStatus 422 }

/-- The base world with transient failures on attempts 1-3 and success on
attempt 4. -/
def worldFlaky : World :=
  { baseWorld with
    upload := fun k => if k < 4 then AttemptOutcome.errOther
      else AttemptOutcome.success }

/-- The base configuration with `SECRET` designated as redacted. -/
def cfgRedact : PipelineUploadConfig := { baseCfg with redactedVars := ["SECRET"] }

/-- The base world with a document whose serialization contains the secret
value `foo123`. -/
def worldSecret : World :=
  { baseWorld with
    readFile := fun p => if p = "dir/pipeline.yml" then some "cmd: foo123"
      else none }

/-! The claims. -/

/-- C1: for every invocation that reaches submission, the change identifier
is generated exactly once, before the retry loop, and every submission
attempt of the invocation carries that identical value in its request. -/
theorem uuid_generated_once_and_constant (cfg : PipelineUploadConfig)
    (w : World) :
    (∀ r ∈ (run cfg w).requests, r.changeID = w.newUUID) ∧
    (∀ r1 ∈ (run cfg w).requests, ∀ r2 ∈ (run cfg w).requests,
      r1.changeID = r2.changeID) := by
  have hmain : ∀ r ∈ (run cfg w).requests, r.changeID = w.newUUID := by
    intro r hr
    rcases run_requests_shape cfg w with h | ⟨doc, h, _, _⟩
    · rw [h] at hr; simp at hr
    · rw [h] at hr
      obtain ⟨i, rfl⟩ := retryGo_mem
        (fun _ => ⟨cfg.job, w.newUUID, doc, cfg.replace⟩) w.upload
        retryConfigMaximum 1 r hr
      rfl
  exact ⟨hmain, fun r1 h1 r2 h2 => (hmain r1 h1).trans (hmain r2 h2).symm⟩

/-- Witness for C1: a run that performs a submission, whose request carries
the UUID the world generates. -/
theorem uuid_generated_once_and_constant_witness :
    (⟨"job-1", "uuid-1", ⟨"steps: []"⟩, false⟩ : UploadRequest) ∈
      (run baseCfg baseWorld).requests ∧
    (⟨"job-1", "uuid-1", ⟨"steps: []"⟩, false⟩ : UploadRequest).changeID =
      baseWorld.newUUID :=
  ⟨by decide,
    (uuid_generated_once_and_constant baseCfg baseWorld).1 _ (by decide)⟩

/-- C2: an attempt answered with status 422 aborts the retry loop
immediately with a terminal failure, independent of the remaining budget;
when the run reaches submission and attempt 1 answers 422, exactly one
attempt is made and the command fails. -/
theorem status422_terminal :
    (∀ (mkReq : Nat → UploadRequest) (upload : Nat → AttemptOutcome)
        (maxAttempts k : Nat), 1 ≤ k → k ≤ maxAttempts →
      upload k = AttemptOutcome.errStatus 422 →
      (∀ j, j < k → 1 ≤ j → retryableFailure (upload j) = true) →
      (retryLoop mkReq upload maxAttempts).1.length = k ∧
        (retryLoop mkReq upload maxAttempts).2 = false) ∧
    (∀ (cfg : PipelineUploadConfig) (w : World) (fn inp : String)
        (doc : PipelineDoc),
      resolveSource cfg w = SourceRes.ok fn inp → inp ≠ "" →
      w.parse (resolveCommit w.environ w.gitRevParse) fn inp
        cfg.noInterpolation = some doc →
      cfg.dryRun = false →
      redactionClean cfg w (resolveCommit w.environ w.gitRevParse) doc = true →
      cfg.job ≠ "" → cfg.agentAccessToken ≠ "" →
      w.upload 1 = AttemptOutcome.errStatus 422 →
      (run cfg w).outcome = Outcome.fatalUpload ∧
        (run cfg w).requests.length = 1) := by
  constructor
  · intro mkReq upload maxA k h1 h2 h422 hall
    have h := retryGo_422 mkReq upload (k - 1) 1 maxA (by omega)
      (by rw [show 1 + (k - 1) = k by omega]; exact h422)
      (fun j hj1 hj2 => hall j (by omega) hj1)
    constructor
    · show (retryGo mkReq upload 1 maxA).1.length = k
      rw [h]; simp only [List.length_map, List.length_range']; omega
    · show (retryGo mkReq upload 1 maxA).2 = false
      rw [h]
  · intro cfg w fn inp doc hs hi hp hd hc hj ht h422
    obtain ⟨ho, hreq, _, _⟩ := run_submits cfg w fn inp doc hs hi hp hd hc hj ht
    have h := retryGo_422 (fun _ => ⟨cfg.job, w.newUUID, doc, cfg.replace⟩)
      w.upload 0 1 retryConfigMaximum (by rw [retryConfigMaximum]; omega)
      (h422) (fun j hj1 hj2 => by omega)
    constructor
    · rw [ho]
      show (if (retryGo _ w.upload 1 retryConfigMaximum).2 then
        Outcome.uploadSuccess else Outcome.fatalUpload) = Outcome.fatalUpload
      rw [h]; simp
    · rw [hreq]
      show (retryGo _ w.upload 1 retryConfigMaximum).1.length = 1
      rw [h]; simp

/-- Witness for C2: a simulated 422 on attempt 1 gives a terminal failed
run with exactly one attempt, under the generous budget of 60. -/
theorem status422_terminal_witness :
    (run baseCfg world422).outcome = Outcome.fatalUpload ∧
    (run baseCfg world422).requests.length = 1 :=
  status422_terminal.2 baseCfg world422 "pipeline.yml" "steps: []"
    ⟨"steps: []"⟩ (by decide) (by decide) rfl rfl (by decide) (by decide)
    (by decide) rfl

/-- C3: a run that reaches submission performs at most the configured 60
attempts; success on attempt k after only retryable failures ends the
command in success with exactly k attempts; 60 retryable failures exhaust
the budget and end the command fatally with exactly 60 attempts. -/
theorem retry_budget_termination (cfg : PipelineUploadConfig) (w : World)
    (fn inp : String) (doc : PipelineDoc)
    (hs : resolveSource cfg w = SourceRes.ok fn inp) (hi : inp ≠ "")
    (hp : w.parse (resolveCommit w.environ w.gitRevParse) fn inp
      cfg.noInterpolation = some doc)
    (hd : cfg.dryRun = false)
    (hc : redactionClean cfg w (resolveCommit w.environ w.gitRevParse) doc =
      true)
    (hj : cfg.job ≠ "") (ht : cfg.agentAccessToken ≠ "") :
    ((run cfg w).requests.length ≤ retryConfigMaximum) ∧
    (∀ k, 1 ≤ k → k ≤ retryConfigMaximum →
      w.upload k = AttemptOutcome.success →
      (∀ j, j < k → 1 ≤ j → retryableFailure (w.upload j) = true) →
      (run cfg w).outcome = Outcome.uploadSuccess ∧
        (run cfg w).requests.length = k) ∧
    ((∀ j, 1 ≤ j → j ≤ retryConfigMaximum →
        retryableFailure (w.upload j) = true) →
      (run cfg w).outcome = Outcome.fatalUpload ∧
        (run cfg w).requests.length = retryConfigMaximum) := by
  obtain ⟨ho, hreq, _, _⟩ := run_submits cfg w fn inp doc hs hi hp hd hc hj ht
  refine ⟨?_, ?_, ?_⟩
  · rw [hreq]
    exact retryGo_length_le _ _ retryConfigMaximum 1
  · intro k h1 h2 hsucc hall
    have h := retryGo_success (fun _ => ⟨cfg.job, w.newUUID, doc, cfg.replace⟩)
      w.upload (k - 1) 1 retryConfigMaximum (by omega)
      (by rw [show 1 + (k - 1) = k by omega]; exact hsucc)
      (fun j hj1 hj2 => hall j (by omega) hj1)
    constructor
    · rw [ho]
      show (if (retryGo _ w.upload 1 retryConfigMaximum).2 then
        Outcome.uploadSuccess else Outcome.fatalUpload) = Outcome.uploadSuccess
      rw [h]; simp
    · rw [hreq]
      show (retryGo _ w.upload 1 retryConfigMaximum).1.length = k
      rw [h]; simp only [List.length_map, List.length_range']; omega
  · intro hall
    have h := retryGo_exhaust (fun _ => ⟨cfg.job, w.newUUID, doc, cfg.replace⟩)
      w.upload retryConfigMaximum 1
      (fun j hj1 hj2 => hall j hj1 (by omega))
    constructor
    · rw [ho]
      show (if (retryGo _ w.upload 1 retryConfigMaximum).2 then
        Outcome.uploadSuccess else Outcome.fatalUpload) = Outcome.fatalUpload
      rw [h]; simp
    · rw [hreq]
      show (retryGo _ w.upload 1 retryConfigMaximum).1.length =
        retryConfigMaximum
      rw [h]; simp

/-- Witness for C3: transient failures on attempts 1-3 and success on
attempt 4 under the budget of 60 give overall success with exactly 4
attempts. -/
theorem retry_budget_termination_witness :
    (run baseCfg worldFlaky).outcome = Outcome.uploadSuccess ∧
    (run baseCfg worldFlaky).requests.length = 4 :=
  (retry_budget_termination baseCfg worldFlaky "pipeline.yml" "steps: []"
    ⟨"steps: []"⟩ (by decide) (by decide) rfl rfl (by decide) (by decide)
    (by decide)).2.1 4 (by decide) (by decide) rfl (by decide)

/-- C4: with a non-empty redaction list, a needle occurring as a literal
substring of the serialized document fails the command fatally, naming the
source, with zero submission attempts; with no needle occurring, the
workflow proceeds to submission. -/
theorem redaction_gate (cfg : PipelineUploadConfig) (w : World)
    (fn inp : String) (doc : PipelineDoc) (s : String)
    (hs : resolveSource cfg w = SourceRes.ok fn inp) (hi : inp ≠ "")
    (hp : w.parse (resolveCommit w.environ w.gitRevParse) fn inp
      cfg.noInterpolation = some doc)
    (hd : cfg.dryRun = false)
    (hv : 0 < cfg.redactedVars.length)
    (hm : w.marshalJSON doc = some s) :
    ((w.getValuesToRedact cfg.redactedVars
        (resolveCommit w.environ w.gitRevParse)).any
        (fun needle => containsSubstr s needle) = true →
      (run cfg w).outcome =
        Outcome.fatalRedaction (if fn = "" then "(stdin)" else fn) ∧
      (run cfg w).requests = []) ∧
    ((w.getValuesToRedact cfg.redactedVars
        (resolveCommit w.environ w.gitRevParse)).any
        (fun needle => containsSubstr s needle) = false →
      cfg.job ≠ "" → cfg.agentAccessToken ≠ "" →
      0 < (run cfg w).requests.length) := by
  constructor
  · intro ha
    rw [run_source_ok cfg w fn inp hs,
      parsePhase_to_redaction cfg w fn inp doc hi hp hd,
      redactionPhase_hit cfg w doc _ _ s hv hm ha]
    exact ⟨rfl, rfl⟩
  · intro ha hj ht
    obtain ⟨_, hreq, _, _⟩ := run_submits cfg w fn inp doc hs hi hp hd
      (redactionClean_of_no_hit cfg w _ doc s hm ha) hj ht
    rw [hreq]
    exact retryGo_length_pos _ _ retryConfigMaximum 1 (by rw [retryConfigMaximum]; omega)

/-- Witness for C4: with `redacted-vars=[SECRET]` and `SECRET=foo123` in the
environment, a document serializing to text containing `foo123` is refused
with zero attempts, and one serializing without it proceeds to submission. -/
theorem redaction_gate_witness :
    ((run cfgRedact worldSecret).outcome = Outcome.fatalRedaction "pipeline.yml" ∧
      (run cfgRedact worldSecret).requests = []) ∧
    0 < (run cfgRedact baseWorld).requests.length :=
  ⟨(redaction_gate cfgRedact worldSecret "pipeline.yml" "cmd: foo123"
      ⟨"cmd: foo123"⟩ "cmd: foo123" (by decide) (by decide) rfl rfl
      (by decide) rfl).1 (by decide),
   (redaction_gate cfgRedact baseWorld "pipeline.yml" "steps: []"
      ⟨"steps: []"⟩ "steps: []" (by decide) (by decide) rfl rfl
      (by decide) rfl).2 (by decide) (by decide) (by decide)⟩

/-- C5: contrary to the claim, the redaction check is not followed by
nothing: on a run that proceeds past the (single) redaction scan, the
leftover fragment at lines 266-270 performs a path-existence pass over the
nine discovery candidates between the redaction check and submission. -/
theorem residual_stat_pass_after_redaction :
    (run cfgRedact baseWorld).redactionScans = 1 ∧
    (run cfgRedact baseWorld).residualStats = discoveryPaths ∧
    discoveryPaths ≠ [] ∧
    (run cfgRedact baseWorld).outcome = Outcome.uploadSuccess := by
  refine ⟨by decide, by decide, by decide, by decide⟩

/-- C6: source resolution prefers the explicit path, then piped stdin, then
the discovery list, where zero existing candidates is the not-found fatal
error, more than one is the ambiguity fatal error listing every offender,
and a unique candidate is read as the source. -/
theorem source_resolution_precedence (cfg : PipelineUploadConfig) (w : World) :
    (∀ inp, cfg.filePath ≠ "" → w.readFile cfg.filePath = some inp →
      resolveSource cfg w = SourceRes.ok (baseName cfg.filePath) inp) ∧
    (cfg.filePath ≠ "" → w.readFile cfg.filePath = none →
      resolveSource cfg w = SourceRes.fatal Outcome.fatalReadFile) ∧
    (∀ inp, cfg.filePath = "" → w.stdinReadable = true →
      w.stdinRead = some inp → resolveSource cfg w = SourceRes.ok "" inp) ∧
    (cfg.filePath = "" → w.stdinReadable = false →
      (discoveryPaths.filter w.fileExists = [] →
        resolveSource cfg w = SourceRes.fatal Outcome.fatalNoConfig) ∧
      (1 < (discoveryPaths.filter w.fileExists).length →
        resolveSource cfg w = SourceRes.fatal
          (Outcome.fatalMultipleConfigs (discoveryPaths.filter w.fileExists))) ∧
      (∀ p inp, discoveryPaths.filter w.fileExists = [p] →
        w.readFile p = some inp →
        resolveSource cfg w = SourceRes.ok (baseName p) inp)) := by
  refine ⟨?_, ?_, ?_, ?_⟩
  · intro inp hne hr; exact resolveSource_explicit_ok cfg w inp hne hr
  · intro hne hr; exact resolveSource_explicit_err cfg w hne hr
  · intro inp h0 hs hr; exact resolveSource_stdin_ok cfg w inp h0 hs hr
  · intro h0 hs
    refine ⟨?_, ?_, ?_⟩
    · intro hf; exact resolveSource_discovery_none cfg w h0 hs hf
    · intro hlen; exact resolveSource_discovery_multi cfg w h0 hs hlen
    · intro p inp hf hr; exact resolveSource_discovery_one cfg w p inp h0 hs hf hr

/-- The base configuration with no explicit path argument. -/
def cfgNoPath : PipelineUploadConfig := { baseCfg with filePath := "" }

/-- The base world with two discovery candidates existing on disk. -/
def worldTwoCandidates : World :=
  { baseWorld with
    fileExists := fun p => p == "buildkite.yml" || p == "buildkite.json" }

/-- The base world with exactly one discovery candidate existing on disk
and readable. -/
def worldOneCandidate : World :=
  { baseWorld with
    fileExists := fun p => p == ".buildkite/pipeline.yml"
    readFile := fun p => if p = ".buildkite/pipeline.yml" then some "steps: []"
      else none }

/-- Witness for C6: two existing candidates are a fatal ambiguity listing
both offenders, zero candidates are a fatal not-found, and a unique
candidate resolves to its base name and content. -/
theorem source_resolution_precedence_witness :
    resolveSource cfgNoPath worldTwoCandidates =
      SourceRes.fatal (Outcome.fatalMultipleConfigs
        ["buildkite.yml", "buildkite.json"]) ∧
    resolveSource cfgNoPath baseWorld = SourceRes.fatal Outcome.fatalNoConfig ∧
    resolveSource cfgNoPath worldOneCandidate =
      SourceRes.ok "pipeline.yml" "steps: []" :=
  ⟨(((source_resolution_precedence cfgNoPath worldTwoCandidates).2.2.2
      rfl rfl).2.1 (by decide)).trans (by decide),
   ((source_resolution_precedence cfgNoPath baseWorld).2.2.2 rfl rfl).1
      (by decide),
   ((((source_resolution_precedence cfgNoPath worldOneCandidate).2.2.2
      rfl rfl).2.2 ".buildkite/pipeline.yml" "steps: []" (by decide)
      (by decide)).trans (by decide))⟩

/-- C7: a dry-run invocation whose parse succeeds writes the indented
serialization to standard output and ends successfully with no further
step: no redaction scan, no leftover stat pass, zero submission attempts. -/
theorem dry_run_short_circuit (cfg : PipelineUploadConfig) (w : World)
    (fn inp out : String) (doc : PipelineDoc)
    (hs : resolveSource cfg w = SourceRes.ok fn inp) (hi : inp ≠ "")
    (hp : w.parse (resolveCommit w.environ w.gitRevParse) fn inp
      cfg.noInterpolation = some doc)
    (hd : cfg.dryRun = true) (he : w.encodeIndented doc = some out) :
    run cfg w = ⟨Outcome.dryRunSuccess out, [], 0, [],
      some (resolveCommit w.environ w.gitRevParse)⟩ := by
  rw [run_source_ok cfg w fn inp hs,
    parsePhase_dryrun_ok cfg w fn inp out doc hi hp hd he]

/-- The base configuration in dry-run mode, with redacted variables
configured so that skipping the redaction check is observable. -/
def cfgDry : PipelineUploadConfig :=
  { baseCfg with dryRun := true, redactedVars := ["SECRET"] }

/-- Witness for C7: a dry run echoes the document and records zero
redaction scans, zero stat checks and zero submission attempts even though
a redaction list is configured. -/
theorem dry_run_short_circuit_witness :
    run cfgDry worldSecret = ⟨Outcome.dryRunSuccess "cmd: foo123", [], 0, [],
      some (resolveCommit worldSecret.environ worldSecret.gitRevParse)⟩ :=
  dry_run_short_circuit cfgDry worldSecret "pipeline.yml" "cmd: foo123"
    "cmd: foo123" ⟨"cmd: foo123"⟩ (by decide) (by decide) rfl rfl rfl

/-- C8: an empty job identifier or an empty access token never produces a
submission attempt, and outside dry-run mode a run that reaches the
precondition checks fails fatally with the corresponding configuration
error. -/
theorem missing_job_or_token_fatal :
    (∀ (cfg : PipelineUploadConfig) (w : World),
      cfg.job = "" ∨ cfg.agentAccessToken = "" →
      (run cfg w).requests = []) ∧
    (∀ (cfg : PipelineUploadConfig) (w : World) (fn inp : String)
        (doc : PipelineDoc),
      resolveSource cfg w = SourceRes.ok fn inp → inp ≠ "" →
      w.parse (resolveCommit w.environ w.gitRevParse) fn inp
        cfg.noInterpolation = some doc →
      cfg.dryRun = false →
      redactionClean cfg w (resolveCommit w.environ w.gitRevParse) doc = true →
      (cfg.job = "" →
        (run cfg w).outcome = Outcome.fatalMissingJob ∧
        (run cfg w).requests = []) ∧
      (cfg.job ≠ "" → cfg.agentAccessToken = "" →
        (run cfg w).outcome = Outcome.fatalMissingAccessToken ∧
        (run cfg w).requests = [])) := by
  constructor
  · intro cfg w h
    rcases run_requests_shape cfg w with he | ⟨doc, _, hj, ht⟩
    · exact he
    · rcases h with h | h
      · exact absurd h hj
      · exact absurd h ht
  · intro cfg w fn inp doc hs hi hp hd hc
    rw [run_source_ok cfg w fn inp hs,
      parsePhase_to_redaction cfg w fn inp doc hi hp hd]
    obtain ⟨n, hn⟩ := redactionPhase_clean cfg w doc
      (if fn = "" then "(stdin)" else fn)
      (resolveCommit w.environ w.gitRevParse) hc
    rw [hn]
    constructor
    · intro hj
      rw [postRedaction_missing_job cfg w doc _ hj]
      exact ⟨rfl, rfl⟩
    · intro hj ht
      rw [postRedaction_missing_token cfg w doc _ hj ht]
      exact ⟨rfl, rfl⟩

/-- The base configuration with an empty job identifier. -/
def cfgNoJob : PipelineUploadConfig := { baseCfg with job := "" }

/-- The base configuration with an empty access token. -/
def cfgNoToken : PipelineUploadConfig :=
  { baseCfg with agentAccessToken := "" }

/-- Witness for C8: an empty job identifier and an empty access token each
fail fatally with zero submission attempts. -/
theorem missing_job_or_token_fatal_witness :
    ((run cfgNoJob baseWorld).outcome = Outcome.fatalMissingJob ∧
      (run cfgNoJob baseWorld).requests = []) ∧
    ((run cfgNoToken baseWorld).outcome = Outcome.fatalMissingAccessToken ∧
      (run cfgNoToken baseWorld).requests = []) :=
  ⟨(missing_job_or_token_fatal.2 cfgNoJob baseWorld "pipeline.yml" "steps: []"
      ⟨"steps: []"⟩ (by decide) (by decide) rfl rfl (by decide)).1 rfl,
   (missing_job_or_token_fatal.2 cfgNoToken baseWorld "pipeline.yml" "steps: []"
      ⟨"steps: []"⟩ (by decide) (by decide) rfl rfl (by decide)).2
      (by decide) rfl⟩

/-- C9: when the commit variable is present, a successful external
resolution overwrites it with the trimmed output and a failed resolution
leaves the environment untouched while the workflow continues to the
parser; every other collaborator failure (explicit read, parse,
serialization, dry-run encoding) terminates the run fatally. -/
theorem commit_resolution_only_nonfatal :
    (∀ (e : EnvMap) (git : String → Option String) (ref : String),
      envGet e "BUILDKITE_COMMIT" = some ref → git ref = none →
      resolveCommit e git = e) ∧
    (∀ (e : EnvMap) (git : String → Option String) (ref out : String),
      envGet e "BUILDKITE_COMMIT" = some ref → git ref = some out →
      resolveCommit e git = envSet e "BUILDKITE_COMMIT" out.trim) ∧
    (∀ (cfg : PipelineUploadConfig) (w : World) (fn inp : String),
      resolveSource cfg w = SourceRes.ok fn inp → inp ≠ "" →
      (∀ r, w.gitRevParse r = none) →
      (run cfg w).parserEnv = some w.environ) ∧
    (∀ (cfg : PipelineUploadConfig) (w : World),
      cfg.filePath ≠ "" → w.readFile cfg.filePath = none →
      (run cfg w).outcome = Outcome.fatalReadFile) ∧
    (∀ (cfg : PipelineUploadConfig) (w : World) (fn inp : String),
      resolveSource cfg w = SourceRes.ok fn inp → inp ≠ "" →
      w.parse (resolveCommit w.environ w.gitRevParse) fn inp
        cfg.noInterpolation = none →
      (run cfg w).outcome =
        Outcome.fatalParse (if fn = "" then "(stdin)" else fn)) ∧
    (∀ (cfg : PipelineUploadConfig) (w : World) (fn inp : String)
        (doc : PipelineDoc),
      resolveSource cfg w = SourceRes.ok fn inp → inp ≠ "" →
      w.parse (resolveCommit w.environ w.gitRevParse) fn inp
        cfg.noInterpolation = some doc →
      cfg.dryRun = false → 0 < cfg.redactedVars.length →
      w.marshalJSON doc = none →
      (run cfg w).outcome =
        Outcome.fatalSerialize (if fn = "" then "(stdin)" else fn)) ∧
    (∀ (cfg : PipelineUploadConfig) (w : World) (fn inp : String)
        (doc : PipelineDoc),
      resolveSource cfg w = SourceRes.ok fn inp → inp ≠ "" →
      w.parse (resolveCommit w.environ w.gitRevParse) fn inp
        cfg.noInterpolation = some doc →
      cfg.dryRun = true → w.encodeIndented doc = none →
      (run cfg w).outcome = Outcome.dryRunFatalEncode) := by
  refine ⟨?_, ?_, ?_, ?_, ?_, ?_, ?_⟩
  · intro e git ref h1 h2
    unfold resolveCommit; rw [h1]; simp [h2]
  · intro e git ref out h1 h2
    unfold resolveCommit; rw [h1]; simp [h2]
  · intro cfg w fn inp hs hi hg
    rw [run_source_ok cfg w fn inp hs, parsePhase_parserEnv cfg w fn inp hi,
      resolveCommit_gitfail w.environ w.gitRevParse hg]
  · intro cfg w hne hr
    rw [run_source_fatal cfg w _ (resolveSource_explicit_err cfg w hne hr)]
  · intro cfg w fn inp hs hi hp
    rw [run_source_ok cfg w fn inp hs, parsePhase_parse_fatal cfg w fn inp hi hp]
  · intro cfg w fn inp doc hs hi hp hd hv hm
    rw [run_source_ok cfg w fn inp hs,
      parsePhase_to_redaction cfg w fn inp doc hi hp hd,
      redactionPhase_serialize_fatal cfg w doc _ _ hv hm]
  · intro cfg w fn inp doc hs hi hp hd he
    rw [run_source_ok cfg w fn inp hs,
      parsePhase_dryrun_err cfg w fn inp doc hi hp hd he]

/-- A world whose revision resolver succeeds with a newline-terminated
hash. -/
def worldGitOk : World :=
  { baseWorld with gitRevParse := fun _ => some "abc123\n" }

/-- Witness for C9: a failed resolution leaves the environment as it was
and the run still reaches the parser with it; a successful resolution
overwrites the commit variable with the trimmed hash. -/
theorem commit_resolution_only_nonfatal_witness :
    resolveCommit baseWorld.environ baseWorld.gitRevParse = baseWorld.environ ∧
    resolveCommit worldGitOk.environ worldGitOk.gitRevParse =
      envSet worldGitOk.environ "BUILDKITE_COMMIT" ("abc123\n".trim) ∧
    (run baseCfg baseWorld).parserEnv = some baseWorld.environ :=
  ⟨commit_resolution_only_nonfatal.1 baseWorld.environ baseWorld.gitRevParse
      "HEAD" (by decide) rfl,
   commit_resolution_only_nonfatal.2.1 worldGitOk.environ
      worldGitOk.gitRevParse "HEAD" "abc123\n" (by decide) rfl,
   commit_resolution_only_nonfatal.2.2.1 baseCfg baseWorld "pipeline.yml"
      "steps: []" (by decide) (by decide) (fun _ => rfl)⟩

/-- If a character-list `dropWhile` returns a cons, its head fails the
predicate. -/
theorem dropWhile_head_false {α : Type} (q : α → Bool) :
    ∀ (xs : List α) (a : α) (t : List α), xs.dropWhile q = a :: t →
      q a = false := by
  intro xs
  induction xs with
  | nil => intro a t h; simp [List.dropWhile] at h
  | cons x xt ih =>
    intro a t h
    rw [List.dropWhile_cons] at h
    by_cases hq : q x
    · rw [if_pos hq] at h; exact ih a t h
    · rw [if_neg hq] at h
      cases h
      simpa using hq

/-- The base name of a non-empty path is never the empty string, so a file
source is never reported as the piped-stdin source. -/
theorem baseName_ne_empty (p : String) (hp : p ≠ "") : baseName p ≠ "" := by
  unfold baseName
  rw [if_neg hp]
  by_cases h0 : ((p.toList.reverse.dropWhile (fun c => c = '/')).reverse) = []
  · rw [if_pos h0]; decide
  · rw [if_neg h0]
    rw [List.reverse_reverse]
    cases hc : p.toList.reverse.dropWhile (fun c => c = '/') with
    | nil => rw [hc] at h0; simp at h0
    | cons a t =>
      have ha := dropWhile_head_false (fun c => decide (c = '/'))
        p.toList.reverse a t hc
      have hne : ((a :: t).takeWhile (fun c => decide (c ≠ '/'))).reverse ≠ [] := by
        rw [List.takeWhile_cons]
        simp only [decide_not, ha, Bool.not_false, if_true]
        simp
      intro hcontra
      exact hne (congrArg String.data hcontra)

/-- C10: the origin name in parse-failure and redaction-failure messages is
the base filename of the source path for an explicit or discovered file,
and the literal `(stdin)` for piped input. -/
theorem origin_name_base_or_stdin :
    (∀ (cfg : PipelineUploadConfig) (w : World) (inp : String),
      cfg.filePath ≠ "" → w.readFile cfg.filePath = some inp → inp ≠ "" →
      w.parse (resolveCommit w.environ w.gitRevParse) (baseName cfg.filePath)
        inp cfg.noInterpolation = none →
      (run cfg w).outcome = Outcome.fatalParse (baseName cfg.filePath)) ∧
    (∀ (cfg : PipelineUploadConfig) (w : World) (inp : String)
        (doc : PipelineDoc) (s : String),
      cfg.filePath ≠ "" → w.readFile cfg.filePath = some inp → inp ≠ "" →
      w.parse (resolveCommit w.environ w.gitRevParse) (baseName cfg.filePath)
        inp cfg.noInterpolation = some doc →
      cfg.dryRun = false → 0 < cfg.redactedVars.length →
      w.marshalJSON doc = some s →
      (w.getValuesToRedact cfg.redactedVars
        (resolveCommit w.environ w.gitRevParse)).any
        (fun needle => containsSubstr s needle) = true →
      (run cfg w).outcome = Outcome.fatalRedaction (baseName cfg.filePath)) ∧
    (∀ (cfg : PipelineUploadConfig) (w : World) (inp : String),
      cfg.filePath = "" → w.stdinReadable = true → w.stdinRead = some inp →
      inp ≠ "" →
      w.parse (resolveCommit w.environ w.gitRevParse) "" inp
        cfg.noInterpolation = none →
      (run cfg w).outcome = Outcome.fatalParse "(stdin)") ∧
    (∀ (cfg : PipelineUploadConfig) (w : World) (p inp : String),
      cfg.filePath = "" → w.stdinReadable = false →
      discoveryPaths.filter w.fileExists = [p] → w.readFile p = some inp →
      inp ≠ "" →
      w.parse (resolveCommit w.environ w.gitRevParse) (baseName p) inp
        cfg.noInterpolation = none →
      (run cfg w).outcome = Outcome.fatalParse (baseName p)) := by
  refine ⟨?_, ?_, ?_, ?_⟩
  · intro cfg w inp hne hr hi hp
    rw [run_source_ok cfg w _ inp (resolveSource_explicit_ok cfg w inp hne hr),
      parsePhase_parse_fatal cfg w _ inp hi hp,
      if_neg (baseName_ne_empty cfg.filePath hne)]
  · intro cfg w inp doc s hne hr hi hp hd hv hm ha
    rw [run_source_ok cfg w _ inp (resolveSource_explicit_ok cfg w inp hne hr),
      parsePhase_to_redaction cfg w _ inp doc hi hp hd,
      redactionPhase_hit cfg w doc _ _ s hv hm ha,
      if_neg (baseName_ne_empty cfg.filePath hne)]
  · intro cfg w inp h0 hstdin hr hi hp
    rw [run_source_ok cfg w _ inp (resolveSource_stdin_ok cfg w inp h0 hstdin hr),
      parsePhase_parse_fatal cfg w _ inp hi hp]
    simp
  · intro cfg w p inp h0 hstdin hf hr hi hp
    have hpne : p ≠ "" := by
      intro hpe
      have : ("" : String) ∈ discoveryPaths.filter w.fileExists := by
        rw [hf, hpe]; simp
      have hmem := List.mem_of_mem_filter this
      revert hmem; decide
    rw [run_source_ok cfg w _ inp
        (resolveSource_discovery_one cfg w p inp h0 hstdin hf hr),
      parsePhase_parse_fatal cfg w _ inp hi hp,
      if_neg (baseName_ne_empty p hpne)]

/-- A world where parsing always fails. -/
def worldParseFail : World :=
  { baseWorld with parse := fun _ _ _ _ => none }

/-- Witness for C10: an explicit path `dir/pipeline.yml` is reported as
`pipeline.yml` — the base filename, not the path as given — and piped
input is reported as `(stdin)`. -/
theorem origin_name_base_or_stdin_witness :
    ((run baseCfg worldParseFail).outcome =
      Outcome.fatalParse (baseName baseCfg.filePath) ∧
      baseName baseCfg.filePath = "pipeline.yml" ∧
      baseCfg.filePath ≠ "pipeline.yml") ∧
    (run cfgNoPath
        { worldParseFail with stdinReadable := true, stdinRead := some "x" }).outcome =
      Outcome.fatalParse "(stdin)" :=
  ⟨⟨origin_name_base_or_stdin.1 baseCfg worldParseFail "steps: []"
      (by decide) (by decide) (by decide) rfl, by decide, by decide⟩,
   origin_name_base_or_stdin.2.2.1 cfgNoPath
      { worldParseFail with stdinReadable := true, stdinRead := some "x" }
      "x" rfl rfl rfl (by decide) rfl⟩

end PipelineUpload
